import Mathlib

/-!
Verification development for the note-operator repository.

The two core modules are embedded shallowly:
* the incremental diff engine (`extractNewContent` / `aggregateContent` of
  `NoteProcessor`, spec name `diffRecord` / `aggregate`), and
* the structured-response recoverer (`parseResponse` of `AnthropicClient`,
  spec name `recover`).

JavaScript strings are modelled as `List Char`; string indices are `Nat`
offsets into that list (all concrete inputs used below lie in the BMP, where
UTF-16 code units and characters coincide).
-/

set_option maxRecDepth 100000

namespace NoteOperator

/-! ### JavaScript character-class and string primitives -/

/-- The character class `\s` of JavaScript regular expressions
(WhiteSpace ∪ LineTerminator, ECMA-262), also the set trimmed by
`String.prototype.trim`. -/
def isJsWs (c : Char) : Bool :=
  let n := c.toNat
  n = 32 || n = 9 || n = 10 || n = 11 || n = 12 || n = 13 ||
  n = 0xa0 || n = 0x1680 || (0x2000 ≤ n && n ≤ 0x200a) ||
  n = 0x2028 || n = 0x2029 || n = 0x202f || n = 0x205f || n = 0x3000 || n = 0xfeff

/-- The four whitespace characters accepted between tokens by `JSON.parse`. -/
def isJsonWs (c : Char) : Bool :=
  c = ' ' || c = '\t' || c = '\n' || c = '\r'

/-- `String.prototype.trim`. -/
def jsTrim (l : List Char) : List Char :=
  ((l.dropWhile isJsWs).reverse.dropWhile isJsWs).reverse

/-- `String.prototype.split(/\r?\n/)`: a line break is `\n`, optionally
preceded by `\r`; a lone `\r` does not break a line. -/
def splitLines : List Char → List (List Char)
  | [] => [[]]
  | '\r' :: '\n' :: rest => [] :: splitLines rest
  | '\n' :: rest => [] :: splitLines rest
  | c :: rest =>
    match splitLines rest with
    | [] => [[c]]
    | h :: t => (c :: h) :: t

/-- Membership of a string in a list of strings (`Set.prototype.has` over the
string set built by the diff engine). -/
def memL (x : List Char) : List (List Char) → Bool
  | [] => false
  | y :: ys => if x = y then true else memL x ys

/-- If `pat` is a prefix of `l`, return the remainder of `l`. -/
def matchPre : List Char → List Char → Option (List Char)
  | [], l => some l
  | _ :: _, [] => none
  | a :: as, b :: bs => if a = b then matchPre as bs else none

/-- `String.prototype.includes`. -/
def containsSub (nd : List Char) : List Char → Bool
  | [] => (matchPre nd []).isSome
  | c :: r => (matchPre nd (c :: r)).isSome || containsSub nd r

/-- `String.prototype.indexOf` for a substring (`none` models `-1`). -/
def idxOfSub (nd : List Char) : List Char → Option Nat
  | [] => if (matchPre nd []).isSome then some 0 else none
  | c :: r => if (matchPre nd (c :: r)).isSome then some 0 else (idxOfSub nd r).map (· + 1)

/-- Index of the first occurrence of a character. -/
def firstIdx? (x : Char) : List Char → Option Nat
  | [] => none
  | c :: r => if c = x then some 0 else (firstIdx? x r).map (· + 1)

/-- Index of the last occurrence of a character. -/
def lastIdx? (x : Char) : List Char → Option Nat
  | [] => none
  | c :: r =>
    match lastIdx? x r with
    | some j => some (j + 1)
    | none => if c = x then some 0 else none

/-- `String.prototype.indexOf(ch, from)`. -/
def idxOfChFrom (l : List Char) (x : Char) (k : Nat) : Option Nat :=
  (firstIdx? x (l.drop k)).map (· + k)

/-- `String.prototype.substring(a, b)` (with `a ≤ b`). -/
def slice (l : List Char) (a b : Nat) : List Char :=
  (l.drop a).take (b - a)

/-! ### Diff engine (`NoteProcessor.extractNewContent` / `aggregateContent`)

Spec names: `diffRecord` and `aggregate`.  The snapshot store lookup
(`snapshotStore.getNoteSnapshot(name)`) is passed in as a function
`store : List Char → Option (List Char)` from note name to snapshot body. -/

/-- The set of non-empty trimmed lines of the previous snapshot body
(the `previousLinesSet` of `extractNewContent`).  Represented as a list;
`memL` is the membership test. -/
def normalizedPrev (pb : List Char) : List (List Char) :=
  ((splitLines pb).map jsTrim).filter (fun t => !t.isEmpty)

/-- The lines of the current body reported as new: non-blank after trimming
and absent (as trimmed text) from the previous snapshot's line set. -/
def newLines (pb cb : List Char) : List (List Char) :=
  (splitLines cb).filter
    (fun l => !(jsTrim l).isEmpty && !(memL (jsTrim l) (normalizedPrev pb)))

/-- `NoteProcessor.extractNewContent` (spec: `diffRecord`): with no previous
snapshot the whole current body is returned; otherwise the new lines joined
with `\n`. -/
def extractNewContent (prev : Option (List Char)) (cur : List Char) : List Char :=
  match prev with
  | none => cur
  | some pb => List.intercalate ['\n'] (newLines pb cur)

/-- A note record as seen by `aggregateContent`.  The source formats
`note.modificationDate.toLocaleString()` into the section header; that
environment-dependent rendering is modelled as the pre-rendered string
`modDateStr`. -/
structure NoteRec where
  name : List Char
  body : List Char
  modDateStr : List Char

/-- Decimal rendering of a `Nat` (template-literal interpolation of
`index + 1`). -/
def natToChars (n : Nat) : List Char := (Nat.repr n).toList

/-- One section of the aggregate:
`--- Note I: NAME (Modified: DATE) ---\nCONTENT\n`. -/
def sectionText (i : Nat) (n : NoteRec) (content : List Char) : List Char :=
  "--- Note ".toList ++ natToChars i ++ ": ".toList ++ n.name ++
  " (Modified: ".toList ++ n.modDateStr ++ ") ---\n".toList ++ content ++ "\n".toList

/-- The loop body of `aggregateContent`: sections for notes whose extracted
new content is non-blank; `i` is the zero-based loop index. -/
def buildSections (store : List Char → Option (List Char)) :
    Nat → List NoteRec → List (List Char)
  | _, [] => []
  | i, n :: rest =>
    let c := extractNewContent (store n.name) n.body
    if (jsTrim c).isEmpty then buildSections store (i + 1) rest
    else sectionText (i + 1) n c :: buildSections store (i + 1) rest

/-- Sentinel returned when no notes were modified in the window. -/
def noNotesSentinel : List Char :=
  "No notes were modified in the last 24 hours.".toList

/-- Sentinel returned when modified notes exist but no new content survived
the diff. -/
def noNewContentSentinel : List Char :=
  "No new content was added to notes in the last 24 hours.".toList

/-- `NoteProcessor.aggregateContent` (spec: `aggregate`). -/
def aggregateContent (store : List Char → Option (List Char))
    (notes : List NoteRec) : List Char :=
  if notes.isEmpty then noNotesSentinel
  else
    let sections := buildSections store 0 notes
    if sections.isEmpty then noNewContentSentinel
    else List.intercalate "\n\n".toList sections

/-! ### JSON values and `JSON.parse`

`JSON.parse` is the JavaScript engine builtin used by `parseResponse`.  It is
modelled here as a strict recursive-descent parser following ECMA-404 /
ECMA-262 `JSON.parse`.  Numbers are represented by their source token (the
code under verification never does arithmetic on them; only truthiness and
`String()` rendering are observed, and the inputs used below write numbers
canonically).  A parse error carries the offset of the first offending
character (end of input reports the input length); the source reads this
offset out of the engine's error message (`position (\d+)`). -/

/-- A parsed JSON value. -/
inductive Json where
  | null : Json
  | bool : Bool → Json
  | num : List Char → Json
  | str : List Char → Json
  | arr : List Json → Json
  | obj : List (List Char × Json) → Json

/-- Skip JSON whitespace; returns the remaining suffix and the advanced
absolute index. -/
def skipWs : List Char → Nat → List Char × Nat
  | [], i => ([], i)
  | c :: r, i => if isJsonWs c then skipWs r (i + 1) else (c :: r, i)

/-- Is `c` a hexadecimal digit? -/
def isHexDig (c : Char) : Bool :=
  c.isDigit || ('a' ≤ c && c ≤ 'f') || ('A' ≤ c && c ≤ 'F')

/-- Numeric value of one hex digit. -/
def hexVal (c : Char) : Nat :=
  if c.isDigit then c.toNat - 48
  else if 'a' ≤ c then c.toNat - 87 else c.toNat - 55

/-- Read four hex digits; returns the value and the remaining suffix. -/
def hex4 : List Char → Option (Nat × List Char)
  | a :: b :: c :: d :: rest =>
    if isHexDig a && isHexDig b && isHexDig c && isHexDig d then
      some (((hexVal a * 16 + hexVal b) * 16 + hexVal c) * 16 + hexVal d, rest)
    else none
  | _ => none

/-- Parse the body of a JSON string literal (the opening quote has been
consumed); `i` is the absolute index of the current character, `acc` the
decoded characters in reverse.  Returns the decoded string, the suffix after
the closing quote and the index after it.  `\uXXXX` escapes are decoded with
`Char.ofNat` (lone UTF-16 surrogate halves, which `List Char` cannot
represent, fall back to `Char.ofNat`'s default; no input below uses them). -/
def parseStrA : List Char → Nat → List Char → Except Nat (List Char × List Char × Nat)
  | [], i, _ => .error i
  | c :: rest, i, acc =>
    if c = '"' then .ok (acc.reverse, rest, i + 1)
    else if c = '\\' then
      match rest with
      | [] => .error (i + 1)
      | e :: rest2 =>
        if e = '"' then parseStrA rest2 (i + 2) ('"' :: acc)
        else if e = '\\' then parseStrA rest2 (i + 2) ('\\' :: acc)
        else if e = '/' then parseStrA rest2 (i + 2) ('/' :: acc)
        else if e = 'b' then parseStrA rest2 (i + 2) ('\x08' :: acc)
        else if e = 'f' then parseStrA rest2 (i + 2) ('\x0c' :: acc)
        else if e = 'n' then parseStrA rest2 (i + 2) ('\n' :: acc)
        else if e = 'r' then parseStrA rest2 (i + 2) ('\r' :: acc)
        else if e = 't' then parseStrA rest2 (i + 2) ('\t' :: acc)
        else if e = 'u' then
          match rest2 with
          | a :: b :: c' :: d :: rest3 =>
            if isHexDig a && isHexDig b && isHexDig c' && isHexDig d then
              parseStrA rest3 (i + 6)
                (Char.ofNat (((hexVal a * 16 + hexVal b) * 16 + hexVal c') * 16 + hexVal d) :: acc)
            else .error (i + 1)
          | _ => .error (i + 1)
        else .error (i + 1)
    else if c.toNat < 32 then .error i
    else parseStrA rest (i + 1) (c :: acc)

/-- Parse a JSON number token starting at the head of `l` (absolute index
`i`); returns the token, the remaining suffix, and the index after it. -/
def parseNum (l : List Char) (i : Nat) : Except Nat (Json × List Char × Nat) :=
  let (neg, l1, i1) :=
    match l with
    | '-' :: r => ((['-'] : List Char), r, i + 1)
    | _ => (([] : List Char), l, i)
  match l1 with
  | [] => .error i1
  | c :: r =>
    if !c.isDigit then .error i1
    else
      let (ip, l2, i2) :=
        if c = '0' then (['0'], r, i1 + 1)
        else
          let ds := l1.takeWhile Char.isDigit
          (ds, l1.drop ds.length, i1 + ds.length)
      -- optional fraction
      let fr? : Except Nat (List Char × List Char × Nat) :=
        match l2 with
        | '.' :: r2 =>
          let ds := r2.takeWhile Char.isDigit
          if ds.isEmpty then .error (i2 + 1)
          else .ok ('.' :: ds, r2.drop ds.length, i2 + 1 + ds.length)
        | _ => .ok ([], l2, i2)
      match fr? with
      | .error p => .error p
      | .ok (fp, l3, i3) =>
        let ex? : Except Nat (List Char × List Char × Nat) :=
          match l3 with
          | e :: r3 =>
            if e = 'e' || e = 'E' then
              let (sg, r4, i4) :=
                match r3 with
                | '+' :: r5 => ([e, '+'], r5, i3 + 2)
                | '-' :: r5 => ([e, '-'], r5, i3 + 2)
                | _ => ([e], r3, i3 + 1)
              let ds := r4.takeWhile Char.isDigit
              if ds.isEmpty then .error i4
              else .ok (sg ++ ds, r4.drop ds.length, i4 + ds.length)
            else .ok ([], l3, i3)
          | [] => .ok ([], l3, i3)
        match ex? with
        | .error p => .error p
        | .ok (ep, l4, i4) => .ok (.num (neg ++ ip ++ fp ++ ep), l4, i4)

mutual

/-- Parse one JSON value at the head of the suffix (leading whitespace
already skipped).  `fuel` bounds the recursion; `jsonParse` supplies more
fuel than any input can consume. -/
def parseVal : Nat → List Char → Nat → Except Nat (Json × List Char × Nat)
  | 0, _, i => .error i
  | fuel + 1, l, i =>
    match l with
    | [] => .error i
    | c :: rest =>
      if c = '{' then
        let (l1, i1) := skipWs rest (i + 1)
        match l1 with
        | '}' :: r2 => .ok (.obj [], r2, i1 + 1)
        | _ => parseMembers fuel l1 i1 []
      else if c = '[' then
        let (l1, i1) := skipWs rest (i + 1)
        match l1 with
        | ']' :: r2 => .ok (.arr [], r2, i1 + 1)
        | _ => parseElems fuel l1 i1 []
      else if c = '"' then
        match parseStrA rest (i + 1) [] with
        | .ok (s, r, i') => .ok (.str s, r, i')
        | .error p => .error p
      else if c = 't' then
        match rest with
        | 'r' :: 'u' :: 'e' :: r => .ok (.bool true, r, i + 4)
        | _ => .error i
      else if c = 'f' then
        match rest with
        | 'a' :: 'l' :: 's' :: 'e' :: r => .ok (.bool false, r, i + 5)
        | _ => .error i
      else if c = 'n' then
        match rest with
        | 'u' :: 'l' :: 'l' :: r => .ok (.null, r, i + 4)
        | _ => .error i
      else if c = '-' || c.isDigit then parseNum (c :: rest) i
      else .error i

/-- Parse the members of a JSON object, positioned at the (non-`}`) first
key. -/
def parseMembers : Nat → List Char → Nat → List (List Char × Json) →
    Except Nat (Json × List Char × Nat)
  | 0, _, i, _ => .error i
  | fuel + 1, l, i, acc =>
    match l with
    | '"' :: rest =>
      match parseStrA rest (i + 1) [] with
      | .error p => .error p
      | .ok (key, r1, i1) =>
        let (r2, i2) := skipWs r1 i1
        match r2 with
        | ':' :: r3 =>
          let (r4, i4) := skipWs r3 (i2 + 1)
          match parseVal fuel r4 i4 with
          | .error p => .error p
          | .ok (v, r5, i5) =>
            let (r6, i6) := skipWs r5 i5
            match r6 with
            | ',' :: r7 =>
              let (r8, i8) := skipWs r7 (i6 + 1)
              parseMembers fuel r8 i8 ((key, v) :: acc)
            | '}' :: r7 => .ok (.obj ((key, v) :: acc).reverse, r7, i6 + 1)
            | _ => .error i6
        | _ => .error i2
    | _ => .error i

/-- Parse the elements of a JSON array, positioned at the (non-`]`) first
element. -/
def parseElems : Nat → List Char → Nat → List Json →
    Except Nat (Json × List Char × Nat)
  | 0, _, i, _ => .error i
  | fuel + 1, l, i, acc =>
    match parseVal fuel l i with
    | .error p => .error p
    | .ok (v, r1, i1) =>
      let (r2, i2) := skipWs r1 i1
      match r2 with
      | ',' :: r3 =>
        let (r4, i4) := skipWs r3 (i2 + 1)
        parseElems fuel r4 i4 (v :: acc)
      | ']' :: r3 => .ok (.arr (v :: acc).reverse, r3, i2 + 1)
      | _ => .error i2

end

/-- `JSON.parse` on a whole string: one value surrounded by optional
whitespace.  Errors carry the failing offset. -/
def jsonParse (js : List Char) : Except Nat Json :=
  let (l0, i0) := skipWs js 0
  match parseVal (js.length + 1) l0 i0 with
  | .error p => .error p
  | .ok (v, r, i') =>
    let (r2, i2) := skipWs r i'
    match r2 with
    | [] => .ok v
    | _ => .error i2

/-! ### Structured-response recoverer (`AnthropicClient.parseResponse`)

Spec name: `recover`.  The data model (`ActionItem`, `DailyBrief`) follows
`llm-service.ts`; a thrown error is modelled as a typed failure (the source
distinguishes the cases only by the message of the thrown `Error`). -/

/-- The three-valued priority union type of `ActionItem`. -/
inductive Priority where
  | high : Priority
  | medium : Priority
  | low : Priority
deriving DecidableEq

/-- An action item of the daily brief. -/
structure ActionItem where
  task : List Char
  priority : Priority
deriving DecidableEq

/-- The structured result produced by `parseResponse`. -/
structure DailyBrief where
  executiveSummary : List Char
  actionItems : List ActionItem
deriving DecidableEq

/-- The failure taxonomy of `parseResponse`, one constructor per distinct
thrown error: no JSON found; the truncated-path errors; invalid structure;
the generic non-truncated parse failure; and the JavaScript `TypeError`
raised by a property access on `null`. -/
inductive RecoverFailure where
  | noStructureFound : RecoverFailure
  | truncatedUnrecoverable : RecoverFailure
  | invalidShape : RecoverFailure
  | parseFailed : RecoverFailure
  | typeError : RecoverFailure
deriving DecidableEq

/-- Property lookup on a JavaScript object built by `JSON.parse`: with
duplicate keys the later assignment wins. -/
def propGet (fields : List (List Char × Json)) (k : List Char) : Option Json :=
  match fields with
  | [] => none
  | (k', v) :: rest =>
    match propGet rest k with
    | some r => some r
    | none => if k' = k then some v else none

/-- Property access `v.k` for the keys used by the validator (`none` models
`undefined`; primitives and arrays have none of these properties). -/
def jsProp : Json → List Char → Option Json
  | .obj fs, k => propGet fs k
  | _, _ => none

/-- Does a JSON number token denote zero (sign and exponent ignored)? -/
def numTokIsZero (tok : List Char) : Bool :=
  let t := match tok with
    | '-' :: r => r
    | _ => tok
  (t.takeWhile (fun c => c.isDigit || c = '.')).all (fun c => c = '0' || c = '.')

/-- JavaScript truthiness of a JSON value. -/
def truthy1 : Json → Bool
  | .null => false
  | .bool b => b
  | .num t => !numTokIsZero t
  | .str s => !s.isEmpty
  | .arr _ => true
  | .obj _ => true

/-- JavaScript truthiness of a possibly-`undefined` value. -/
def truthyO : Option Json → Bool
  | none => false
  | some v => truthy1 v

/-- `String(v)` on a JSON value (recursive part: array stringification joins
the element strings with commas, rendering `null` elements as empty). -/
def jsToStrRec (inArr : Bool) : Json → List Char
  | .null => if inArr then [] else "null".toList
  | .bool true => "true".toList
  | .bool false => "false".toList
  | .num t => t
  | .str s => s
  | .obj _ => "[object Object]".toList
  | .arr l => List.intercalate ",".toList (l.attach.map fun x => jsToStrRec true x.1)
decreasing_by
  have := List.sizeOf_lt_of_mem x.2
  simp only [Json.arr.sizeOf_spec]
  omega

/-- `String(v)` on a JSON value.  Non-recursive on the outside so that the
common cases compute definitionally. -/
def jsToStr : Json → List Char
  | .null => "null".toList
  | .bool true => "true".toList
  | .bool false => "false".toList
  | .num t => t
  | .str s => s
  | .obj _ => "[object Object]".toList
  | .arr l => jsToStrRec false (.arr l)

/-- The decoded key `executiveSummary`. -/
def sumKey : List Char := "executiveSummary".toList

/-- The decoded key `actionItems`. -/
def itemsKey : List Char := "actionItems".toList

/-- The decoded key `task`. -/
def taskKey : List Char := "task".toList

/-- The decoded key `priority`. -/
def prioKey : List Char := "priority".toList

/-- `let priority = item.priority || 'Medium'; if (!['High','Medium','Low']
.includes(priority)) priority = 'Medium'` — the result is `High`/`Low` only
when the field is exactly that string, `Medium` in every other case. -/
def prioOf (p : Option Json) : Priority :=
  match p with
  | some (.str s) =>
    if s = "High".toList then .high
    else if s = "Low".toList then .low
    else .medium
  | _ => .medium

/-- The per-item sanitizer of the validator, for non-`null` items: items
whose `task` field is falsy are dropped (`none`); otherwise the task is
coerced with `String()` and the priority clamped. -/
def sanitizeItem? (item : Json) : Option ActionItem :=
  match jsProp item taskKey with
  | none => none
  | some tv =>
    if truthy1 tv then some ⟨jsToStr tv, prioOf (jsProp item prioKey)⟩
    else none

/-- Is the value JSON `null`? -/
def isNullJ : Json → Bool
  | .null => true
  | _ => false

/-- `parsed.actionItems.map(...).filter(...)`: the callback accesses
`item.task`, so a `null` element raises a `TypeError`; otherwise items map
to `sanitizeItem?` results with the `none`s filtered out. -/
def mapItems : List Json → Except RecoverFailure (List ActionItem)
  | [] => .ok []
  | it :: rest =>
    if isNullJ it then .error .typeError
    else
      match mapItems rest with
      | .error e => .error e
      | .ok l =>
        match sanitizeItem? it with
        | some a => .ok (a :: l)
        | none => .ok l

/-- Lines 291–316 of `parseResponse`: structure validation and item
normalization of the parsed value. -/
def validateBrief (parsed : Json) : Except RecoverFailure DailyBrief :=
  if isNullJ parsed then .error .typeError
  else if truthyO (jsProp parsed sumKey) then
    match jsProp parsed itemsKey with
    | some (.arr its) =>
      match mapItems its with
      | .error e => .error e
      | .ok l => .ok ⟨jsToStr ((jsProp parsed sumKey).getD .null), l⟩
    | _ => .error .invalidShape
  else .error .invalidShape

/-! #### Extraction and lenient normalization (Stages 1–2) -/

/-- `response.match(/\{[\s\S]*\}/)`: the greedy regex matches from the first
`{` to the last `}` of the text, provided the latter comes later; it is
neither balance-checking nor string-aware. -/
def extractJson (s : List Char) : Option (List Char) :=
  match firstIdx? '{' s, lastIdx? '}' s with
  | some i, some j => if i < j then some (slice s i (j + 1)) else none
  | _, _ => none

/-- Does the remainder begin with optional `\s` characters followed by a
closing brace or bracket?  (The lookahead of `/,(\s*[}\]])/`.) -/
def startsClose (l : List Char) : Bool :=
  match l.dropWhile isJsWs with
  | c :: _ => c = '}' || c = ']'
  | [] => false

/-- `.replace(/,(\s*[}\]])/g, '$1')`: drop every comma that is followed by
optional whitespace and a closing brace/bracket. -/
def stripCommas : List Char → List Char
  | [] => []
  | c :: r => if c = ',' && startsClose r then stripCommas r else c :: stripCommas r

/-- The lookahead of `/,(\s*\n\s*[}\]])/`: as `startsClose`, but the
whitespace run must contain a newline. -/
def startsNlClose (l : List Char) : Bool :=
  ((l.takeWhile isJsWs).any (fun c => c = '\n')) && startsClose l

/-- `.replace(/,(\s*\n\s*[}\]])/g, '$1')`. -/
def stripCommas2 : List Char → List Char
  | [] => []
  | c :: r => if c = ',' && startsNlClose r then stripCommas2 r else c :: stripCommas2 r

/-- One global `replace` of `tok` followed by `\s*` with the empty string;
`fuel` bounds the scan (callers pass the input length, which always
suffices). -/
def stripAllAux (tok : List Char) : Nat → List Char → List Char
  | 0, l => l
  | f + 1, l =>
    match matchPre tok l with
    | some rest => stripAllAux tok f (rest.dropWhile isJsWs)
    | none =>
      match l with
      | [] => []
      | c :: r => c :: stripAllAux tok f r

/-- `.replace(new RegExp(tok + '\\s*'), '')`, global. -/
def stripAll (tok l : List Char) : List Char := stripAllAux tok l.length l

/-- `response.replace(/```json\s*/g, '').replace(/```\s*/g, '')`. -/
def stripFences (s : List Char) : List Char :=
  stripAll "```".toList (stripAll "```json".toList s)

/-! #### Truncation repair (Stage 4) -/

/-- The inner brace-matching loop (lines 202–231): walk the suffix of `js`
starting at absolute index `i`, tracking brace depth (`bc`), string state and
escape state; return the index one past the brace closing the object, if
reached before the bound.  `fuel` is `stop - i` at the call. -/
def matchObjAux : Nat → List Char → Nat → Int → Bool → Bool → Option Nat
  | 0, _, _, _, _, _ => none
  | _ + 1, [], _, _, _, _ => none
  | f + 1, c :: rest, i, bc, inStr, esc =>
    if esc then matchObjAux f rest (i + 1) bc inStr false
    else if c = '\\' then matchObjAux f rest (i + 1) bc inStr true
    else if c = '"' then matchObjAux f rest (i + 1) bc (!inStr) false
    else if !inStr && c = '{' then matchObjAux f rest (i + 1) (bc + 1) inStr false
    else if !inStr && c = '}' then
      if bc = 1 then some (i + 1) else matchObjAux f rest (i + 1) (bc - 1) inStr false
    else matchObjAux f rest (i + 1) bc inStr false

/-- String-aware scan for the `}` matching the `{` at index `i` of `js`,
looking no further than index `stop` (exclusive). -/
def matchObj (js : List Char) (stop i : Nat) : Option Nat :=
  matchObjAux (stop - i) (js.drop i) i 0 false false

/-- The whitespace/comma skip loop (lines 187–189), on the suffix from `p`. -/
def skipWsCommaAux : List Char → Nat → Nat
  | [], p => p
  | c :: r, p => if isJsWs c || c = ',' then skipWsCommaAux r (p + 1) else p

/-- `while (pos < len && /[\s,\n]/.test(js[pos])) pos++`. -/
def skipWsComma (js : List Char) (pos : Nat) : Nat :=
  skipWsCommaAux (js.drop pos) pos

/-- `"task"` with its quotes, as searched by `objStr.includes('"task"')`. -/
def taskNeedle : List Char := "\"task\"".toList

/-- `"priority"` with its quotes. -/
def prioNeedle : List Char := "\"priority\"".toList

/-- The Stage-4 scan loop over the items array (lines 185–249): from `pos`,
while `pos < e` (`e` the parse-error offset) and `pos` in range, skip
whitespace and commas, then try to read a complete `{...}` object; an object
containing both needles is accepted and the scan resumes after it, one
lacking a needle is skipped by a single character, and an unterminated
object ends the scan.  `fuel` bounds the iteration count; `none` means the
fuel ran out (shown below never to happen for the fuel used). -/
def scanItems (js : List Char) (e : Nat) :
    Nat → Nat → List (List Char) → Option (List (List Char))
  | 0, pos, acc =>
    if pos < e ∧ pos < js.length then none else some acc.reverse
  | f + 1, pos, acc =>
    if pos < e ∧ pos < js.length then
      let p := skipWsComma js pos
      if js.length ≤ p then some acc.reverse
      else if js.getD p ' ' = '{' then
        match matchObj js (min js.length (e + 100)) p with
        | some oe =>
          let objStr := slice js p oe
          if containsSub taskNeedle objStr && containsSub prioNeedle objStr then
            scanItems js e f oe (objStr :: acc)
          else scanItems js e f (p + 1) acc
        | none => some acc.reverse
      else scanItems js e f (p + 1) acc
    else some acc.reverse

/-- `"actionItems"` with its quotes, as searched by
`jsonString.indexOf('"actionItems"')`. -/
def actionItemsNeedle : List Char := "\"actionItems\"".toList

/-- Locate the opening bracket of the `actionItems` array: the source
requires `indexOf('"actionItems"') > 0` and `indexOf('[', ...) > 0`. -/
def actionArrayStart? (js : List Char) : Option Nat :=
  match idxOfSub actionItemsNeedle js with
  | none => none
  | some k =>
    if k = 0 then none
    else
      match idxOfChFrom js '[' k with
      | none => none
      | some a => if a = 0 then none else some a

/-- The complete objects recovered by the Stage-4 scan (array content starts
one past the bracket; the fuel `e + 1` always suffices). -/
def recoveredItems (js : List Char) (e a : Nat) : List (List Char) :=
  (scanItems js e (e + 1) (a + 1) []).getD []

/-- Reconstruction of a well-formed span (lines 255–257): everything up to
and including the array bracket, the accepted objects joined by
`,\n&#32;&#32;&#32;&#32;`, then `\n&#32;&#32;]\n}`. -/
def syntheticSpan (js : List Char) (a : Nat) (ms : List (List Char)) : List Char :=
  js.take (a + 1) ++ "\n    ".toList ++
    List.intercalate ",\n    ".toList ms ++ "\n  ]\n\x7d".toList

/-- The truncation-repair path (lines 170–275), entered with the normalized
span `js` and the parse-error offset `e`: failures of the array search, an
empty recovery, or a failing parse of the synthetic span all throw
truncation errors; otherwise the reparsed value is handed on. -/
def truncationRepair (js : List Char) (e : Nat) : Except RecoverFailure Json :=
  match actionArrayStart? js with
  | none => .error .truncatedUnrecoverable
  | some a =>
    if (recoveredItems js e a).isEmpty then .error .truncatedUnrecoverable
    else
      match jsonParse (syntheticSpan js a (recoveredItems js e a)) with
      | .ok v => .ok v
      | .error _ => .error .truncatedUnrecoverable

/-! #### The pipeline -/

/-- Stages 2–5 on an extracted span: normalize trailing commas, strict
parse, and on failure either the truncation-repair path (error position
truthy and within 50 of the end) or one more comma-stripping retry; every
successfully parsed value flows into `validateBrief`. -/
def afterExtract (span : List Char) : Except RecoverFailure DailyBrief :=
  match jsonParse (stripCommas span) with
  | .ok v => validateBrief v
  | .error p =>
    if p ≠ 0 ∧ (stripCommas span).length ≤ p + 50 then
      match truncationRepair (stripCommas span) p with
      | .ok v => validateBrief v
      | .error f => .error f
    else
      match jsonParse (stripCommas2 (stripCommas (stripCommas span))) with
      | .ok v => validateBrief v
      | .error _ => .error .parseFailed

/-- `AnthropicClient.parseResponse` (spec: `recover`): extract a span with
the greedy regex, retrying once on the fence-stripped text; no span on
either attempt is the no-structure failure; otherwise run Stages 2–5. -/
def parseResponse (s : List Char) : Except RecoverFailure DailyBrief :=
  match extractJson s with
  | some span => afterExtract span
  | none =>
    match extractJson (stripFences s) with
    | some span => afterExtract span
    | none => .error .noStructureFound

/-! #### Canonical JSON shapes used to state the round-trip claim -/

/-- The string of a priority as it appears in JSON. -/
def prioStr : Priority → List Char
  | .high => "High".toList
  | .medium => "Medium".toList
  | .low => "Low".toList

/-- The parsed value of a well-formed action-item object. -/
def itemJson (it : ActionItem) : Json :=
  .obj [(taskKey, .str it.task), (prioKey, .str (prioStr it.priority))]

/-- The parsed value of a well-formed brief object. -/
def briefJson (summary : List Char) (items : List ActionItem) : Json :=
  .obj [(sumKey, .str summary), (itemsKey, .arr (items.map itemJson))]

/-! ### Lemmas about the Stage-4 scan -/

theorem skipWsCommaAux_ge (l : List Char) : ∀ p, p ≤ skipWsCommaAux l p := by
  induction l with
  | nil => intro p; exact le_rfl
  | cons c r ih =>
    intro p
    rw [skipWsCommaAux]
    split
    · exact le_trans (Nat.le_succ p) (ih (p + 1))
    · exact le_rfl

theorem skipWsComma_ge (js : List Char) (pos : Nat) : pos ≤ skipWsComma js pos :=
  skipWsCommaAux_ge _ pos

theorem matchObjAux_lt :
    ∀ (f : Nat) (l : List Char) (i : Nat) (bc : Int) (a b : Bool) (oe : Nat),
      matchObjAux f l i bc a b = some oe → i < oe := by
  intro f
  induction f with
  | zero => intro l i bc a b oe h; simp [matchObjAux] at h
  | succ f ih =>
    intro l i bc a b oe h
    cases l with
    | nil => simp [matchObjAux] at h
    | cons c rest =>
      rw [matchObjAux] at h
      split at h
      · exact lt_trans (Nat.lt_succ_self i) (ih _ _ _ _ _ _ h)
      · split at h
        · exact lt_trans (Nat.lt_succ_self i) (ih _ _ _ _ _ _ h)
        · split at h
          · exact lt_trans (Nat.lt_succ_self i) (ih _ _ _ _ _ _ h)
          · split at h
            · exact lt_trans (Nat.lt_succ_self i) (ih _ _ _ _ _ _ h)
            · split at h
              · split at h
                · cases h; omega
                · exact lt_trans (Nat.lt_succ_self i) (ih _ _ _ _ _ _ h)
              · exact lt_trans (Nat.lt_succ_self i) (ih _ _ _ _ _ _ h)

theorem matchObj_lt (js : List Char) (stop i oe : Nat)
    (h : matchObj js stop i = some oe) : i < oe :=
  matchObjAux_lt _ _ _ _ _ _ _ h

/-! ### Lemmas about character indexing -/

theorem firstIdx?_getElem (x : Char) (l : List Char) (i : Nat)
    (h : firstIdx? x l = some i) : l[i]? = some x := by
  induction l generalizing i with
  | nil => simp [firstIdx?] at h
  | cons c r ih =>
    rw [firstIdx?] at h
    split at h
    · cases h
      rename_i hc
      simp [hc]
    · obtain ⟨i', hi', rfl⟩ := Option.map_eq_some'.mp h
      simpa using ih i' hi'

theorem firstIdx?_min (x : Char) (l : List Char) (i : Nat)
    (h : firstIdx? x l = some i) : ∀ k, l[k]? = some x → i ≤ k := by
  induction l generalizing i with
  | nil => simp [firstIdx?] at h
  | cons c r ih =>
    rw [firstIdx?] at h
    split at h
    · cases h
      intro k _
      exact Nat.zero_le k
    · obtain ⟨i', hi', rfl⟩ := Option.map_eq_some'.mp h
      intro k hk
      cases k with
      | zero =>
        rename_i hc
        simp at hk
        exact absurd hk hc
      | succ k' =>
        simp at hk
        have := ih i' hi' k' hk
        omega

theorem firstIdx?_none (x : Char) (l : List Char)
    (h : firstIdx? x l = none) : ∀ k : Nat, l[k]? ≠ some x := by
  induction l with
  | nil => intro k; simp
  | cons c r ih =>
    rw [firstIdx?] at h
    split at h
    · cases h
    · intro k hk
      cases k with
      | zero =>
        rename_i hc
        simp at hk
        exact hc hk
      | succ k' =>
        simp at hk
        exact ih (Option.map_eq_none'.mp h) k' hk

theorem lastIdx?_getElem (x : Char) (l : List Char) (j : Nat)
    (h : lastIdx? x l = some j) : l[j]? = some x := by
  induction l generalizing j with
  | nil => simp [lastIdx?] at h
  | cons c r ih =>
    rw [lastIdx?] at h
    split at h
    · cases h
      rename_i j' hj'
      simpa using ih j' hj'
    · split at h
      · cases h
        simp
        assumption
      · cases h

theorem lastIdx?_none (x : Char) (l : List Char)
    (h : lastIdx? x l = none) : ∀ k : Nat, l[k]? ≠ some x := by
  induction l with
  | nil => intro k; simp
  | cons c r ih =>
    rw [lastIdx?] at h
    split at h
    · cases h
    · rename_i hnone
      split at h
      · cases h
      · intro k hk
        cases k with
        | zero =>
          rename_i hc
          simp at hk
          exact hc hk
        | succ k' =>
          simp at hk
          exact ih hnone k' hk

theorem lastIdx?_max (x : Char) (l : List Char) (j : Nat)
    (h : lastIdx? x l = some j) : ∀ k, l[k]? = some x → k ≤ j := by
  induction l generalizing j with
  | nil => simp [lastIdx?] at h
  | cons c r ih =>
    rw [lastIdx?] at h
    split at h
    · cases h
      rename_i j' hj'
      intro k hk
      cases k with
      | zero => exact Nat.zero_le _
      | succ k' =>
        simp at hk
        have := ih j' hj' k' hk
        omega
    · rename_i hnone
      split at h
      · cases h
        intro k hk
        cases k with
        | zero => exact le_rfl
        | succ k' =>
          simp at hk
          exact absurd hk (lastIdx?_none x r hnone k')
      · cases h

/-- The extraction regex finds nothing exactly when no `{` is followed
(strictly later) by a `}`. -/
theorem extractJson_eq_none_iff (s : List Char) :
    extractJson s = none ↔
      ¬ ∃ i j : Nat, i < j ∧ s[i]? = some '{' ∧ s[j]? = some '}' := by
  constructor
  · intro h hex
    obtain ⟨i, j, hij, hi, hj⟩ := hex
    rw [extractJson] at h
    cases hf : firstIdx? '{' s with
    | none => exact firstIdx?_none _ _ hf i hi
    | some fi =>
      cases hl : lastIdx? '}' s with
      | none => exact lastIdx?_none _ _ hl j hj
      | some lj =>
        rw [hf, hl] at h
        change (if fi < lj then some (slice s fi (lj + 1)) else none) = none at h
        by_cases hflj : fi < lj
        · rw [if_pos hflj] at h
          cases h
        · have h1 := firstIdx?_min _ _ _ hf i hi
          have h2 := lastIdx?_max _ _ _ hl j hj
          omega
  · intro h
    rw [extractJson]
    cases hf : firstIdx? '{' s with
    | none => rfl
    | some fi =>
      cases hl : lastIdx? '}' s with
      | none => rfl
      | some lj =>
        change (if fi < lj then some (slice s fi (lj + 1)) else none) = none
        rw [if_neg]
        intro hij
        exact h ⟨fi, lj, hij, firstIdx?_getElem _ _ _ hf, lastIdx?_getElem _ _ _ hl⟩

/-! ### Lemmas about the failure taxonomy -/

theorem mapItems_error_cases (its : List Json) (f : RecoverFailure)
    (h : mapItems its = .error f) : f = .typeError := by
  induction its with
  | nil => simp [mapItems] at h
  | cons it rest ih =>
    rw [mapItems] at h
    split at h
    · cases h
      rfl
    · split at h
      · rename_i e he
        cases h
        exact ih he
      · split at h <;> cases h

theorem validateBrief_error_cases (v : Json) (f : RecoverFailure)
    (h : validateBrief v = .error f) : f = .typeError ∨ f = .invalidShape := by
  rw [validateBrief] at h
  split at h
  · cases h
    exact Or.inl rfl
  · split at h
    · split at h
      · split at h
        · rename_i e he
          cases h
          exact Or.inl (mapItems_error_cases _ _ he)
        · cases h
      · cases h
        exact Or.inr rfl
    · cases h
      exact Or.inr rfl

theorem truncationRepair_error_cases (js : List Char) (p : Nat) (f : RecoverFailure)
    (h : truncationRepair js p = .error f) : f = .truncatedUnrecoverable := by
  rw [truncationRepair] at h
  split at h
  · cases h; rfl
  · split at h
    · cases h; rfl
    · split at h
      · cases h
      · cases h; rfl

theorem afterExtract_ne_noStructure (span : List Char) :
    afterExtract span ≠ .error .noStructureFound := by
  rw [afterExtract]
  intro h
  split at h
  · rcases validateBrief_error_cases _ _ h with h' | h' <;> cases h'
  · split at h
    · split at h
      · rcases validateBrief_error_cases _ _ h with h' | h' <;> cases h'
      · rename_i f hf
        cases h
        cases truncationRepair_error_cases _ _ _ hf
    · split at h
      · rcases validateBrief_error_cases _ _ h with h' | h' <;> cases h'
      · cases h

/-! ### Lemmas about the diff engine -/

theorem memL_iff (x : List Char) (ys : List (List Char)) : memL x ys = true ↔ x ∈ ys := by
  induction ys with
  | nil => simp [memL]
  | cons y ys ih => by_cases h : x = y <;> simp [memL, h, ih]

theorem memL_eq_false (x : List Char) (ys : List (List Char)) :
    (memL x ys = false) ↔ x ∉ ys := by
  rw [← memL_iff x ys]
  cases memL x ys <;> simp

theorem buildSections_eq_nil (store : List Char → Option (List Char))
    (notes : List NoteRec)
    (h : ∀ n ∈ notes, jsTrim (extractNewContent (store n.name) n.body) = []) :
    ∀ i, buildSections store i notes = [] := by
  induction notes with
  | nil => intro i; rfl
  | cons n rest ih =>
    intro i
    have hn := h n (by simp)
    have hrest := ih (fun m hm => h m (by simp [hm]))
    simp only [buildSections, hn]
    simpa using hrest (i + 1)

/-! ### Claims C3, C7, C8, C9 — the diff engine -/

/-- C3: with an existing snapshot, `diffRecord` reports a current line as new
exactly when its trimmed form is non-empty and absent from the set of
non-empty trimmed snapshot lines, and consequently `newLines` is empty iff
the record's line-normalized content is a subset of the snapshot's. -/
theorem c3_diff_lines (pb cb : List Char) :
    (∀ l, l ∈ newLines pb cb ↔
      (l ∈ splitLines cb ∧ jsTrim l ≠ [] ∧ jsTrim l ∉ normalizedPrev pb)) ∧
    (newLines pb cb = [] ↔ ∀ t ∈ normalizedPrev cb, t ∈ normalizedPrev pb) := by
  constructor
  · intro l
    rw [newLines, List.mem_filter]
    simp only [Bool.and_eq_true, Bool.not_eq_true', List.isEmpty_iff, memL_eq_false,
      and_assoc]
    constructor
    · rintro ⟨h1, h2, h3⟩
      exact ⟨h1, by simpa [List.isEmpty_iff] using h2, h3⟩
    · rintro ⟨h1, h2, h3⟩
      exact ⟨h1, by simpa [List.isEmpty_iff] using h2, h3⟩
  · rw [newLines, List.filter_eq_nil_iff]
    constructor
    · intro h t ht
      rw [normalizedPrev, List.mem_filter, List.mem_map] at ht
      obtain ⟨⟨l, hl, rfl⟩, hne⟩ := ht
      have hcontra := h l hl
      simp only [Bool.and_eq_true, Bool.not_eq_true', not_and] at hcontra
      have hemp : (jsTrim l).isEmpty = false := by simpa using hne
      have hnm := hcontra hemp
      have hmem : memL (jsTrim l) (normalizedPrev pb) = true := by
        cases hmm : memL (jsTrim l) (normalizedPrev pb)
        · exact absurd hmm hnm
        · rfl
      exact (memL_iff _ _).mp hmem
    · intro h l hl
      simp only [Bool.and_eq_true, Bool.not_eq_true', not_and]
      intro hemp
      rw [memL_eq_false]
      intro hnot
      apply hnot
      apply h
      rw [normalizedPrev, List.mem_filter]
      exact ⟨List.mem_map.mpr ⟨l, hl, rfl⟩, by simp [hemp]⟩

/-- C3 witness: on the spec's own example, `line3` is reported as new. -/
theorem c3_witness :
    "line3".toList ∈ newLines "line1\nline2".toList "line1\nline2\nline3".toList :=
  ((c3_diff_lines "line1\nline2".toList "line1\nline2\nline3".toList).1
    "line3".toList).mpr (by decide)

/-- C7: with no prior snapshot, `diffRecord` returns the whole current body
as the new content — every line of the body is reported. -/
theorem c7_first_sight (cur : List Char) :
    extractNewContent none cur = cur ∧
    splitLines (extractNewContent none cur) = splitLines cur :=
  ⟨rfl, rfl⟩

/-- C8 counterexample: the claim quantifies over every snapshot state, but in
the no-snapshot state the whole body — including its blank lines — is the
reported new content: for the body `a\n\nb` the reported lines contain the
blank line. -/
theorem c8_counterexample :
    ([] : List Char) ∈ splitLines (extractNewContent none "a\n\nb".toList) := by
  decide

/-- C8 amended: for every record with an existing snapshot, no blank
(whitespace-only) line is reported among the new lines, and the new lines
appear in their original order (a sublist of the current body's lines). -/
theorem c8_no_blank_lines (pb cb : List Char) :
    (∀ l ∈ newLines pb cb, jsTrim l ≠ []) ∧
    (newLines pb cb).Sublist (splitLines cb) := by
  refine ⟨?_, List.filter_sublist _⟩
  intro l hl
  rw [newLines, List.mem_filter] at hl
  have h2 := hl.2
  simp only [Bool.and_eq_true, Bool.not_eq_true'] at h2
  intro hh
  rw [hh] at h2
  simp at h2

/-- C8 witness: a concrete new line is non-blank after trimming. -/
theorem c8_witness : jsTrim "line3".toList ≠ [] :=
  (c8_no_blank_lines "line1".toList "line1\nline3".toList).1 "line3".toList
    (by decide)

/-- C9 counterexample store: every note has a snapshot equal to its body. -/
def c9store : List Char → Option (List Char) := fun _ => some "a".toList

/-- C9 counterexample note: body identical to its snapshot (empty delta). -/
def c9note : NoteRec := ⟨"n".toList, "a".toList, "d".toList⟩

/-- C9 counterexample: the empty record set and an entirely-unchanged record
set — both covered by the claim — yield two different strings, so there is
no single designated sentinel. -/
theorem c9_counterexample :
    aggregateContent c9store [] ≠ aggregateContent c9store [c9note] ∧
    jsTrim (extractNewContent (c9store c9note.name) c9note.body) = [] := by
  constructor
  · decide
  · decide

/-- C9 amended: the empty record set yields the fixed non-empty string
`No notes were modified in the last 24 hours.`; a non-empty record set whose
every record's extracted delta is blank yields the fixed non-empty string
`No new content was added to notes in the last 24 hours.`; neither sentinel
is the empty string. -/
theorem c9_sentinels (store : List Char → Option (List Char)) (notes : List NoteRec) :
    aggregateContent store [] = noNotesSentinel ∧
    (notes ≠ [] →
      (∀ n ∈ notes, jsTrim (extractNewContent (store n.name) n.body) = []) →
      aggregateContent store notes = noNewContentSentinel) ∧
    noNotesSentinel ≠ [] ∧ noNewContentSentinel ≠ [] := by
  refine ⟨rfl, ?_, by decide, by decide⟩
  intro hne h
  rw [aggregateContent]
  have h1 : notes.isEmpty = false := by
    cases notes
    · simp at hne
    · rfl
  have h2 := buildSections_eq_nil store notes h 0
  simp [h1, h2]

/-- C9 witness: a non-empty, entirely-unchanged record set yields the second
sentinel. -/
theorem c9_witness : aggregateContent c9store [c9note] = noNewContentSentinel :=
  (c9_sentinels c9store [c9note]).2.1 (List.cons_ne_nil _ _) (by decide)

/-! ### Claim C10 — termination of the truncation-repair scan -/

/-- C10: the Stage-4 scan terminates: each iteration strictly advances the
position, so fuel `e - pos + 1` — in particular the fuel `e + 1` used by
`recoveredItems` — always suffices, and the scan never reports fuel
exhaustion on any input string, error position or start position. -/
theorem c10_scan_terminates (js : List Char) (e : Nat) :
    ∀ (fuel pos : Nat) (acc : List (List Char)),
      e ≤ fuel + pos → scanItems js e fuel pos acc ≠ none := by
  intro fuel
  induction fuel with
  | zero =>
    intro pos acc h
    rw [scanItems, if_neg]
    · simp
    · rintro ⟨h1, -⟩
      omega
  | succ f ih =>
    intro pos acc h
    rw [scanItems]
    by_cases hc : pos < e ∧ pos < js.length
    · rw [if_pos hc]
      have hp : pos ≤ skipWsComma js pos := skipWsComma_ge js pos
      simp only []
      split
      · simp
      · split
        · split
          · split
            · apply ih
              rename_i oe hoe _
              have := matchObj_lt js _ _ _ hoe
              omega
            · apply ih
              omega
          · simp
        · apply ih
          omega
    · rw [if_neg hc]
      simp

/-- C10 witness: a concrete scan completes with the fuel bound. -/
theorem c10_witness :
    scanItems "[\x7b\"task\":1\x7d]".toList 12 13 1 [] ≠ none :=
  c10_scan_terminates _ 12 13 1 [] (by decide)

/-! ### Claim C1 — behaviour of the scan on complete-but-wrong-shape objects -/

/-- C1 counterexample input: a truncated response whose items array starts
with a complete object lacking the `task`/`priority` keys, followed by a
complete well-formed action item. -/
def c1raw : List Char :=
  "\x7b\"executiveSummary\":\"s\",\"actionItems\":[\x7b\"bad\":1\x7d,\x7b\"task\":\"a\",\"priority\":\"High\"\x7d,\x7b\"task\":\"b\",\"pr".toList

/-- The span the greedy regex extracts from `c1raw` (up to the last `}`). -/
def c1js : List Char :=
  "\x7b\"executiveSummary\":\"s\",\"actionItems\":[\x7b\"bad\":1\x7d,\x7b\"task\":\"a\",\"priority\":\"High\"\x7d".toList

/-- C1 counterexample: the input enters truncation repair (parse error at
offset 79 = the span length); at scan position 39 the scanner finds the
complete object `\x7b"bad":1\x7d` (closing at 48) which lacks the `task`
key, yet scanning does not stop there: the recovery succeeds with the action
item taken from the object that appears later in the array. -/
theorem c1_counterexample :
    extractJson c1raw = some c1js ∧
    jsonParse (stripCommas c1js) = .error 79 ∧
    matchObj c1js (min c1js.length (79 + 100)) 39 = some 48 ∧
    containsSub taskNeedle (slice c1js 39 48) = false ∧
    parseResponse c1raw = .ok ⟨"s".toList, [⟨"a".toList, Priority.high⟩]⟩ :=
  ⟨rfl, rfl, rfl, rfl, rfl⟩

/-- C1 amended: upon encountering a complete object that lacks either
needle, the Stage-4 scan does not stop: it advances by one character past
the object's opening brace and continues, so objects appearing later in the
array can still be accepted. -/
theorem c1_scan_continues (js : List Char) (e f pos : Nat) (acc : List (List Char))
    (oe : Nat) (h1 : pos < e) (h2 : pos < js.length)
    (h3 : skipWsComma js pos = pos) (h4 : js.getD pos ' ' = '{')
    (h5 : matchObj js (min js.length (e + 100)) pos = some oe)
    (h6 : (containsSub taskNeedle (slice js pos oe) &&
           containsSub prioNeedle (slice js pos oe)) = false) :
    scanItems js e (f + 1) pos acc = scanItems js e f (pos + 1) acc := by
  rw [scanItems, if_pos ⟨h1, h2⟩]
  simp only [h3]
  rw [if_neg (by omega)]
  rw [if_pos h4, h5]
  simp only [h6]
  rfl

/-- C1 witness: one step of the scan on the counterexample span skips the
wrong-shape object at position 39 by a single character. -/
theorem c1_witness :
    scanItems c1js 79 71 39 [] = scanItems c1js 79 70 40 [] :=
  c1_scan_continues c1js 79 70 39 [] 48 (by decide) (by decide) rfl rfl rfl rfl

/-! ### Claim C2 — Stage-1 extraction -/

/-- Modelled from the spec: Stage-1 extraction as the spec words it —
"locate the first top-level `{...}` span", brace-balanced with
string-aware, escape-aware matching.  The source has no such scanner in
Stage 1 (only the greedy regex); this definition exists solely to compare
the spec's description with `extractJson`. -/
def specBalancedSpan (s : List Char) : Option (List Char) :=
  match firstIdx? '{' s with
  | none => none
  | some i =>
    (matchObjAux (s.length - i) (s.drop i) i 0 false false).map (fun oe => slice s i oe)

/-- C2 counterexample input: a balanced object followed by a stray `}`. -/
def c2raw : List Char := "\x7b\"a\":1\x7d \x7d".toList

/-- C2 counterexample: on `\x7b"a":1\x7d \x7d` the first top-level balanced
span is `\x7b"a":1\x7d`, but the source's greedy regex extracts everything
up to the *last* `}` — an unbalanced span — so Stage 1 does not locate the
first balanced span. -/
theorem c2_counterexample :
    extractJson c2raw = some "\x7b\"a\":1\x7d \x7d".toList ∧
    specBalancedSpan c2raw = some "\x7b\"a\":1\x7d".toList ∧
    ("\x7b\"a\":1\x7d \x7d".toList ≠ "\x7b\"a\":1\x7d".toList) :=
  ⟨rfl, rfl, by decide⟩

/-- C2 amended: Stage-1 extraction takes the span from the first `{` to the
last `}` of the text (greedy, neither balance-checking nor string-aware);
it finds nothing exactly when no `{` is followed by a later `}`, in which
case the code-fence-stripped text is retried once, and `recover` returns
`NoStructureFound` precisely when both attempts find nothing — in
particular nothing is parsed in that case. -/
theorem c2_extraction_amended (s : List Char) :
    (parseResponse s = .error .noStructureFound ↔
      extractJson s = none ∧ extractJson (stripFences s) = none) ∧
    (extractJson s = none ↔
      ¬ ∃ i j : Nat, i < j ∧ s[i]? = some '{' ∧ s[j]? = some '}') := by
  refine ⟨?_, extractJson_eq_none_iff s⟩
  constructor
  · intro h
    rw [parseResponse] at h
    cases h1 : extractJson s with
    | some sp =>
      rw [h1] at h
      exact absurd h (afterExtract_ne_noStructure sp)
    | none =>
      rw [h1] at h
      cases h2 : extractJson (stripFences s) with
      | some sp =>
        rw [h2] at h
        exact absurd h (afterExtract_ne_noStructure sp)
      | none => exact ⟨rfl, rfl⟩
  · rintro ⟨h1, h2⟩
    rw [parseResponse, h1, h2]

/-- C2 witness: text with no brace-delimited structure, fenced or not, is
rejected as `NoStructureFound`. -/
theorem c2_witness :
    parseResponse "The model returned plain prose.".toList =
      .error .noStructureFound :=
  (c2_extraction_amended "The model returned plain prose.".toList).1.mpr ⟨rfl, rfl⟩

/-! ### Claim C5 — the truncation-repair path -/

/-- C5 counterexample input: truncated mid-array, with one complete action
item but no `executiveSummary` field. -/
def c5raw : List Char :=
  "\x7b\"foo\":1,\"actionItems\":[\x7b\"task\":\"a\",\"priority\":\"High\"\x7d,\x7b\"task\":\"b".toList

/-- The span extracted from `c5raw`. -/
def c5js : List Char :=
  "\x7b\"foo\":1,\"actionItems\":[\x7b\"task\":\"a\",\"priority\":\"High\"\x7d".toList

/-- C5 counterexample: the input enters truncation repair (error at offset
54, the span end), one complete action item is recovered, and the
reconstructed synthetic span parses — yet `recover` does not succeed: Stage-5
shape validation rejects the object (no summary), so the claimed "if and
only if" fails in the if direction. -/
theorem c5_counterexample :
    extractJson c5raw = some c5js ∧
    jsonParse (stripCommas c5js) = .error 54 ∧
    recoveredItems c5js 54 23 ≠ [] ∧
    (∃ v, jsonParse (syntheticSpan c5js 23 (recoveredItems c5js 54 23)) = .ok v) ∧
    parseResponse c5raw = .error .invalidShape :=
  ⟨rfl, rfl, by decide, ⟨_, rfl⟩, rfl⟩

/-- C5 amended: for every raw input whose normalized extracted span fails
the strict parse with a truthy error position in the 50-character tail
window, `recover` runs truncation repair and its result is handed to
Stage-5 validation; it fails with `TruncatedUnrecoverable` when the items
array cannot be located, when zero complete items are recovered, or when
the synthetic span still fails to parse; and it succeeds if and only if at
least one item is recovered, the synthetic span parses, *and* the reparsed
object passes shape validation.  (The source's partial-recovery indication
is a console log only, not part of the returned value.) -/
theorem c5_truncation_amended (s sp : List Char) (p : Nat)
    (h1 : extractJson s = some sp)
    (h2 : jsonParse (stripCommas sp) = .error p)
    (h3 : p ≠ 0)
    (h4 : (stripCommas sp).length ≤ p + 50) :
    (parseResponse s =
      match truncationRepair (stripCommas sp) p with
      | .ok v => validateBrief v
      | .error f => .error f) ∧
    (actionArrayStart? (stripCommas sp) = none →
      parseResponse s = .error .truncatedUnrecoverable) ∧
    (∀ a : Nat, actionArrayStart? (stripCommas sp) = some a →
      recoveredItems (stripCommas sp) p a = [] →
      parseResponse s = .error .truncatedUnrecoverable) ∧
    (∀ a : Nat, actionArrayStart? (stripCommas sp) = some a →
      recoveredItems (stripCommas sp) p a ≠ [] →
      parseResponse s =
        match jsonParse (syntheticSpan (stripCommas sp) a
            (recoveredItems (stripCommas sp) p a)) with
        | .ok v => validateBrief v
        | .error _ => .error .truncatedUnrecoverable) ∧
    ((∃ b, parseResponse s = .ok b) ↔
      ∃ (a : Nat) (v : Json) (b : DailyBrief),
        actionArrayStart? (stripCommas sp) = some a ∧
        recoveredItems (stripCommas sp) p a ≠ [] ∧
        jsonParse (syntheticSpan (stripCommas sp) a
          (recoveredItems (stripCommas sp) p a)) = .ok v ∧
        validateBrief v = .ok b) := by
  have key : parseResponse s =
      match truncationRepair (stripCommas sp) p with
      | .ok v => validateBrief v
      | .error f => .error f := by
    rw [parseResponse, h1]
    show afterExtract sp = _
    rw [afterExtract, h2]
    exact if_pos ⟨h3, h4⟩
  refine ⟨key, ?_, ?_, ?_, ?_⟩
  · intro hnone
    rw [key]
    simp only [truncationRepair, hnone]
  · intro a ha hms
    rw [key]
    simp only [truncationRepair, ha, hms, List.isEmpty_nil, if_true]
  · intro a ha hms
    rw [key]
    simp only [truncationRepair, ha]
    rw [if_neg (by simp [hms])]
    cases hj : jsonParse (syntheticSpan (stripCommas sp) a
        (recoveredItems (stripCommas sp) p a)) with
    | error q => simp only [hj]
    | ok v => simp only [hj]
  · constructor
    · rintro ⟨b, hb⟩
      rw [key] at hb
      cases ha : actionArrayStart? (stripCommas sp) with
      | none =>
        simp only [truncationRepair, ha] at hb
        cases hb
      | some a =>
        simp only [truncationRepair, ha] at hb
        by_cases hms : (recoveredItems (stripCommas sp) p a).isEmpty = true
        · rw [if_pos hms] at hb
          simp at hb
        · rw [if_neg hms] at hb
          cases hj : jsonParse (syntheticSpan (stripCommas sp) a
              (recoveredItems (stripCommas sp) p a)) with
          | error q =>
            simp only [hj] at hb
            cases hb
          | ok v =>
            simp only [hj] at hb
            refine ⟨a, v, b, rfl, ?_, hj, hb⟩
            intro hemp
            exact hms (by simp [hemp])
    · rintro ⟨a, v, b, ha, hms, hj, hvb⟩
      refine ⟨b, ?_⟩
      rw [key]
      simp only [truncationRepair, ha]
      rw [if_neg (by simp [hms])]
      simp only [hj, hvb]

/-- C5 witness: a truncated response with a summary and one complete item is
repaired and succeeds. -/
def c5wraw : List Char :=
  "\x7b\"executiveSummary\":\"s\",\"actionItems\":[\x7b\"task\":\"a\",\"priority\":\"High\"\x7d,\x7b\"task\":\"b".toList

/-- The span extracted from `c5wraw`. -/
def c5wjs : List Char :=
  "\x7b\"executiveSummary\":\"s\",\"actionItems\":[\x7b\"task\":\"a\",\"priority\":\"High\"\x7d".toList

/-- C5 witness: the amended theorem applied to a concrete truncated input
whose repair succeeds with the one recovered item. -/
theorem c5_witness :
    parseResponse c5wraw = .ok ⟨"s".toList, [⟨"a".toList, Priority.high⟩]⟩ := by
  have h := (c5_truncation_amended c5wraw c5wjs 69 rfl rfl (by decide) (by decide)).2.2.2.1
    38 rfl (by decide)
  rw [h]
  rfl

/-! ### Claim C4 — round trip on well-formed JSON -/

theorem lastIdx?_getLast (x : Char) (s : List Char)
    (h : s.getLast? = some x) : lastIdx? x s = some (s.length - 1) := by
  induction s with
  | nil => simp at h
  | cons c r ih =>
    cases r with
    | nil =>
      simp at h
      subst h
      simp [lastIdx?]
    | cons d r' =>
      rw [List.getLast?_cons_cons] at h
      have := ih h
      rw [lastIdx?, this]
      simp

theorem extractJson_whole (s : List Char)
    (h0 : s.head? = some '{') (h1 : s.getLast? = some '}') :
    extractJson s = some s := by
  cases s with
  | nil => simp at h0
  | cons c t =>
    simp at h0
    subst h0
    have hfi : firstIdx? '{' ('{' :: t) = some 0 := by simp [firstIdx?]
    have hlen : t ≠ [] := by
      intro ht
      subst ht
      simp at h1
    have hla := lastIdx?_getLast '}' ('{' :: t) h1
    rw [extractJson, hfi, hla]
    have hlen2 : 1 ≤ t.length := by
      cases t
      · exact absurd rfl hlen
      · simp
    show (if 0 < ('{' :: t).length - 1 then
        some (slice ('{' :: t) 0 (('{' :: t).length - 1 + 1)) else none) =
      some ('{' :: t)
    rw [if_pos (by simp; omega)]
    congr 1
    simp only [slice, List.drop_zero]
    have heq : ('{' :: t).length - 1 + 1 - 0 = ('{' :: t).length := by simp
    rw [heq, List.take_length]

theorem sanitizeItem?_itemJson (it : ActionItem) (h : it.task ≠ []) :
    sanitizeItem? (itemJson it) = some it := by
  have key : sanitizeItem? (itemJson it) =
      if truthy1 (Json.str it.task) then
        some ⟨it.task, prioOf (some (.str (prioStr it.priority)))⟩
      else none := rfl
  rw [key]
  have ht : truthy1 (Json.str it.task) = true := by
    cases hcase : it.task with
    | nil => exact absurd hcase h
    | cons a l => simp [truthy1, hcase]
  rw [if_pos ht]
  have hp : prioOf (some (.str (prioStr it.priority))) = it.priority := by
    cases it.priority <;> rfl
  rw [hp]

theorem mapItems_itemJson (items : List ActionItem)
    (h : ∀ it ∈ items, it.task ≠ []) :
    mapItems (items.map itemJson) = .ok items := by
  induction items with
  | nil => rfl
  | cons it rest ih =>
    have hrest := ih (fun m hm => h m (by simp [hm]))
    have hit := sanitizeItem?_itemJson it (h it (by simp))
    rw [List.map_cons, mapItems]
    rw [if_neg (by simp [itemJson, isNullJ])]
    rw [hrest, hit]

theorem validateBrief_briefJson (summary : List Char) (items : List ActionItem)
    (hsum : summary ≠ []) (hits : ∀ it ∈ items, it.task ≠ []) :
    validateBrief (briefJson summary items) = .ok ⟨summary, items⟩ := by
  have h1 : jsProp (briefJson summary items) sumKey = some (.str summary) := rfl
  have h2 : jsProp (briefJson summary items) itemsKey =
      some (.arr (items.map itemJson)) := rfl
  have ht : truthyO (some (Json.str summary)) = true := by
    cases hcase : summary with
    | nil => exact absurd hcase hsum
    | cons a l => simp [truthyO, truthy1, hcase]
  rw [validateBrief]
  rw [if_neg (by simp [briefJson, isNullJ])]
  rw [h1, ht]
  simp only [if_true, h2, mapItems_itemJson items hits, Option.getD_some]
  rfl

/-- C4 counterexample input: well-formed JSON whose summary string contains
the substring `,\x7d`. -/
def c4raw : List Char :=
  "\x7b\"executiveSummary\":\"a,\x7d\",\"actionItems\":[]\x7d".toList

/-- C4 counterexample: the input is well-formed JSON (no wrapping) carrying
the summary `a,\x7d`, but Stage-2 normalization deletes the comma *inside
the string literal*, so `recover` returns the altered summary `a\x7d` — not
an exact round trip. -/
theorem c4_counterexample :
    jsonParse c4raw = .ok (briefJson "a,\x7d".toList []) ∧
    parseResponse c4raw = .ok ⟨"a\x7d".toList, []⟩ ∧
    ("a\x7d".toList ≠ "a,\x7d".toList) :=
  ⟨rfl, rfl, by decide⟩

/-- C4 amended: for every well-formed JSON input with no prose wrapping
(text begins with the object's `{` and ends with its `}`), whose object
carries a non-empty summary string and an items array of objects each with
a non-empty task string and a priority in the three-value enum, and which
the trailing-comma normalization leaves unchanged (no comma followed by
optional whitespace and a closing brace/bracket, in particular none inside
a string literal), `recover` returns exactly that summary and exactly
those items. -/
theorem c4_roundtrip_amended (s : List Char) (summary : List Char)
    (items : List ActionItem)
    (h0 : s.head? = some '{') (h1 : s.getLast? = some '}')
    (h2 : stripCommas s = s)
    (h3 : jsonParse s = .ok (briefJson summary items))
    (h4 : summary ≠ []) (h5 : ∀ it ∈ items, it.task ≠ []) :
    parseResponse s = .ok ⟨summary, items⟩ := by
  rw [parseResponse, extractJson_whole s h0 h1]
  show afterExtract s = _
  rw [afterExtract, h2, h3]
  exact validateBrief_briefJson summary items h4 h5

/-- C4 witness: the spec's own example round-trips exactly. -/
theorem c4_witness :
    parseResponse
        "\x7b\"executiveSummary\":\"ok\",\"actionItems\":[\x7b\"task\":\"Do X\",\"priority\":\"High\"\x7d]\x7d".toList =
      .ok ⟨"ok".toList, [⟨"Do X".toList, Priority.high⟩]⟩ :=
  c4_roundtrip_amended _ "ok".toList [⟨"Do X".toList, Priority.high⟩]
    rfl rfl rfl rfl (by decide) (by decide)

/-! ### Claim C6 — Stage-5 shape validation -/

theorem isNullJ_eq_false (v : Json) (h : v ≠ .null) : isNullJ v = false := by
  cases v with
  | null => exact absurd rfl h
  | bool b => rfl
  | num t => rfl
  | str t => rfl
  | arr l => rfl
  | obj l => rfl

theorem mapItems_no_null (its : List Json) (h : Json.null ∉ its) :
    mapItems its = .ok (its.filterMap sanitizeItem?) := by
  induction its with
  | nil => rfl
  | cons it rest ih =>
    have h1 : it ≠ .null := fun hh => h (by simp [hh])
    have h2 : Json.null ∉ rest := fun hh => h (by simp [hh])
    rw [mapItems, if_neg (by simp [isNullJ_eq_false it h1]), ih h2]
    cases hs : sanitizeItem? it <;> simp [List.filterMap_cons, hs]

theorem mapItems_null_mem (its : List Json) (h : Json.null ∈ its) :
    mapItems its = .error .typeError := by
  induction its with
  | nil => simp at h
  | cons it rest ih =>
    rw [mapItems]
    by_cases hn : isNullJ it = true
    · rw [if_pos hn]
    · rw [if_neg hn]
      have hmem : Json.null ∈ rest := by
        rcases List.mem_cons.mp h with hh | hh
        · exfalso
          apply hn
          rw [← hh]
          rfl
        · exact hh
      rw [ih hmem]

/-- C6 counterexample input 1: valid shape whose items array contains
`null`. -/
def c6raw : List Char :=
  "\x7b\"executiveSummary\":\"s\",\"actionItems\":[null]\x7d".toList

/-- C6 counterexample input 2: the summary field is the number `5` — truthy
but not a string. -/
def c6raw2 : List Char :=
  "\x7b\"executiveSummary\":5,\"actionItems\":[]\x7d".toList

/-- C6 counterexample: (a) a `null` entry in the items array is an item
without task text, but instead of being dropped it aborts the whole
recovery (the JavaScript `TypeError` from `item.task`); (b) an object whose
summary is the number `5` lacks a non-empty summary *string*, yet recovery
succeeds (with the coerced summary `5`) instead of failing with
`InvalidShape`. -/
theorem c6_counterexample :
    (jsonParse c6raw =
      .ok (.obj [(sumKey, .str "s".toList), (itemsKey, .arr [.null])]) ∧
     parseResponse c6raw = .error .typeError) ∧
    (jsonParse c6raw2 =
      .ok (.obj [(sumKey, .num "5".toList), (itemsKey, .arr [])]) ∧
     parseResponse c6raw2 = .ok ⟨"5".toList, []⟩) :=
  ⟨⟨rfl, rfl⟩, ⟨rfl, rfl⟩⟩

/-- C6 amended: for every parsed object, validation fails with
`InvalidShape` when the summary field is JavaScript-falsy (absent, `null`,
`false`, zero or the empty string — in particular whenever it is a string
it must be non-empty) or when the items field is not an array; otherwise a
`null` entry in the items array makes the whole recovery fail with a
`TypeError`, and with no `null` entry the result is a success whose items
are the sanitized survivors: items with a falsy task field are dropped
(never fatal), a kept item's task is `String()`-coerced, its priority is
`High`/`Low` exactly when the field is that exact string and `Medium` in
every other case, and an item list that ends up empty is still a success. -/
theorem c6_validation_amended (fs : List (List Char × Json)) :
    ((truthyO (propGet fs sumKey) = false ∨
      ¬ ∃ its, propGet fs itemsKey = some (.arr its)) →
      validateBrief (.obj fs) = .error .invalidShape) ∧
    (∀ sv its, propGet fs sumKey = some sv → truthy1 sv = true →
      propGet fs itemsKey = some (.arr its) →
      (Json.null ∈ its → validateBrief (.obj fs) = .error .typeError) ∧
      (Json.null ∉ its →
        validateBrief (.obj fs) = .ok ⟨jsToStr sv, its.filterMap sanitizeItem?⟩)) ∧
    (∀ it, truthyO (jsProp it taskKey) = false → sanitizeItem? it = none) ∧
    (∀ it tv, jsProp it taskKey = some tv → truthy1 tv = true →
      sanitizeItem? it = some ⟨jsToStr tv, prioOf (jsProp it prioKey)⟩) ∧
    (prioOf (some (.str "High".toList)) = .high ∧
     prioOf (some (.str "Low".toList)) = .low ∧
     prioOf none = .medium ∧
     ∀ s' : List Char, s' ≠ "High".toList → s' ≠ "Low".toList →
       prioOf (some (.str s')) = .medium) := by
  refine ⟨?_, ?_, ?_, ?_, rfl, rfl, rfl, ?_⟩
  · intro h
    rw [validateBrief, if_neg (by simp [isNullJ])]
    rcases h with h | h
    · rw [if_neg (by simp [jsProp, h])]
    · by_cases htr : truthyO (propGet fs sumKey) = true
      · rw [if_pos (by simp [jsProp, htr])]
        cases hpi : jsProp (.obj fs) itemsKey with
        | none => simp only [hpi]
        | some v =>
          cases v with
          | null => simp only [hpi]
          | bool b => simp only [hpi]
          | num t => simp only [hpi]
          | str t => simp only [hpi]
          | arr its => exact absurd ⟨its, hpi⟩ h
          | obj l => simp only [hpi]
      · rw [if_neg (by simp [jsProp]; simpa using htr)]
  · intro sv its hsv htv hits
    have hbase : ∀ r, mapItems its = r →
        validateBrief (.obj fs) =
          (match r with
           | .error e => .error e
           | .ok l => .ok ⟨jsToStr sv, l⟩) := by
      intro r hr
      rw [validateBrief, if_neg (by simp [isNullJ])]
      rw [if_pos (by simp [jsProp, hsv, truthyO, htv])]
      have hji : jsProp (.obj fs) itemsKey = some (.arr its) := hits
      simp only [hji, hr]
      cases r with
      | error e => rfl
      | ok l =>
        have hjs : jsProp (.obj fs) sumKey = some sv := hsv
        simp only [hjs, Option.getD_some]
    constructor
    · intro hnull
      rw [hbase _ (mapItems_null_mem its hnull)]
    · intro hnull
      rw [hbase _ (mapItems_no_null its hnull)]
  · intro it h
    rw [sanitizeItem?]
    cases hjp : jsProp it taskKey with
    | none => rfl
    | some tv =>
      rw [hjp] at h
      simp only [hjp]
      rw [if_neg (by simpa [truthyO] using h)]
  · intro it tv hjp htv
    rw [sanitizeItem?]
    simp only [hjp]
    rw [if_pos htv]
  · intro s' hhi hlo
    rw [prioOf]
    rw [if_neg hhi, if_neg hlo]

/-- C6 witness object fields: a valid summary and one item with a task but
no priority. -/
def c6fs : List (List Char × Json) :=
  [(sumKey, .str "s".toList),
   (itemsKey, .arr [.obj [(taskKey, .str "x".toList)]])]

/-- C6 witness: validation succeeds and the priority defaults to `Medium`. -/
theorem c6_witness :
    validateBrief (.obj c6fs) = .ok ⟨"s".toList, [⟨"x".toList, Priority.medium⟩]⟩ := by
  have h := ((c6_validation_amended c6fs).2.1 (.str "s".toList)
    [.obj [(taskKey, .str "x".toList)]] rfl rfl rfl).2 (by simp)
  rw [h]
  rfl

end NoteOperator
